import Mathlib

/-!
Verification of the p2p-chat-app NAT-traversal chat repository.

Shallow embedding of the repository's Python sources:
- `tests/ptp_test.py` : the AES-GCM framed secure channel (`encrypt_message`,
  `decrypt_message`, `udp_listener`);
- `p2p_chat.py` : the brute-force hole-punching client
  (`P2PChat.listen_for_messages`, `P2PChat.brute_force_connect`);
- `src/p2p/client.py` : STUN endpoint discovery (`get_public_endpoint`),
  rendezvous polling (`discover_peer`), directed hole punching
  (`establish_connection`), keepalive (`send_keepalive`), and the wiring
  done by `main`;
- `src/p2p/server.py` : the rendezvous registry (`cleanup_stale_entries`,
  `register`, `get_peer`).

Machine integers do not overflow in any of the modelled code paths, so ports,
counts and timestamps are `Nat` (timestamps in whole seconds since an
arbitrary origin); UDP payloads are `String` tags or byte lists (`List Nat`).
-/

namespace P2P

/-- A network address `(ip, port)` as produced by `socket.recvfrom`. -/
abbrev Addr := String × Nat

/-! ## Secure message channel (`tests/ptp_test.py`) -/

/-- Abstract model of the external `cryptography` AEAD primitive
(`AESGCM(SHARED_KEY).encrypt` / `.decrypt`).  The library is outside the
repository, so it is a parameter of the embedding; `dec` returning `none`
models the `InvalidTag` / `ValueError` exceptions that the source catches.
Plaintexts are `String` (the source's `.encode()` / `.decode()` UTF-8 framing
is a bijection on valid text and is folded into the scheme). -/
structure AEADScheme where
  enc : List Nat → List Nat → String → List Nat
  dec : List Nat → List Nat → List Nat → Option String

/-- Function `encrypt_message` from `tests/ptp_test.py`: generate a 12-byte nonce,
encrypt, and transmit `nonce + encrypted_data` (nonce first). The nonce is an
input here since `os.urandom` is external randomness. -/
def encrypt_message (A : AEADScheme) (key nonce : List Nat) (message : String) : List Nat :=
  nonce ++ A.enc key nonce message

/-- Function `decrypt_message` from `tests/ptp_test.py`: the first 12 bytes of the
frame are the nonce (`encrypted_message[:12]`), the rest the ciphertext
(`encrypted_message[12:]`); every decryption failure is caught by the
`except` clause, so the function is total and returns `none` where the
source prints the error and returns the `"[Decryption Error]"` sentinel. -/
def decrypt_message (A : AEADScheme) (key frame : List Nat) : Option String :=
  A.dec key (frame.take 12) (frame.drop 12)

/-- The sentinel string that `decrypt_message` substitutes for an
undecryptable datagram. -/
def decryptionError : String := "[Decryption Error]"

/-- Function `udp_listener` from `tests/ptp_test.py`: an unbounded loop that decrypts
every received datagram and prints the result; modelled on the finite list of
datagrams actually received.  Each iteration handles exactly one datagram and
no failure leaves the loop, so the output has one entry per input. -/
def udp_listener (A : AEADScheme) (key : List Nat) (frames : List (List Nat)) : List String :=
  frames.map (fun f =>
    match decrypt_message A key f with
    | some m => m
    | none => decryptionError)

/-- A concrete executable AEAD instance used to evaluate the theorems on
explicit inputs: the ciphertext is the plaintext's code points followed by a
16-byte tag of zeros, and decryption rejects any ciphertext without a full
valid tag (mirroring AES-GCM's 16-byte authentication tag). -/
def tagScheme : AEADScheme where
  enc := fun _ _ p => (p.data.map Char.toNat) ++ List.replicate 16 0
  dec := fun _ _ c =>
    if 16 ≤ c.length then
      if c.drop (c.length - 16) = List.replicate 16 0 then
        some (String.mk ((c.take (c.length - 16)).map Char.ofNat))
      else none
    else none

/-- For any AEAD scheme, a ciphertext shorter than the 16-byte tag cannot
authenticate in `tagScheme`. -/
theorem tagScheme_dec_short (k n c : List Nat) (hc : c.length < 16) :
    tagScheme.dec k n c = none := by
  simp only [tagScheme]
  rw [if_neg (by omega)]

/-- C2: for every plaintext `P`, decrypting the result of encrypting `P`
with the same pre-shared key returns `P` exactly, and the wire frame is laid
out as the 12-byte nonce followed by the AEAD ciphertext.  The hypothesis
`hA` is the AEAD library's round-trip contract at the used key/nonce/message,
`hn` records that `os.urandom(12)` always yields a 12-byte nonce. -/
theorem encrypt_decrypt_roundtrip (A : AEADScheme) (key nonce : List Nat) (P : String)
    (hA : A.dec key nonce (A.enc key nonce P) = some P)
    (hn : nonce.length = 12) :
    decrypt_message A key (encrypt_message A key nonce P) = some P ∧
    (encrypt_message A key nonce P).take 12 = nonce ∧
    (encrypt_message A key nonce P).drop 12 = A.enc key nonce P := by
  unfold decrypt_message encrypt_message
  rw [← hn, List.take_left, List.drop_left]
  exact ⟨hA, rfl, rfl⟩

/-- Witness for C2 at a concrete key, nonce and plaintext. -/
theorem encrypt_decrypt_roundtrip_witness :
    decrypt_message tagScheme [3] (encrypt_message tagScheme [3] (List.replicate 12 7) "hi") =
      some "hi" ∧
    (encrypt_message tagScheme [3] (List.replicate 12 7) "hi").take 12 = List.replicate 12 7 ∧
    (encrypt_message tagScheme [3] (List.replicate 12 7) "hi").drop 12 =
      tagScheme.enc [3] (List.replicate 12 7) "hi" :=
  encrypt_decrypt_roundtrip tagScheme [3] (List.replicate 12 7) "hi" (by decide) (by decide)

/-- C4: a frame shorter than 12 bytes always fails decryption; a frame whose
ciphertext fails AEAD authentication fails decryption; in both cases
`decrypt_message` returns its failure result rather than raising (it is a
total function), and `udp_listener` still produces one output per received
datagram, i.e. the receive loop continues past failures.  The hypothesis
`hA` is the AEAD library's guarantee that a ciphertext shorter than the
16-byte authentication tag never authenticates. -/
theorem decrypt_failure_is_contained (A : AEADScheme) (key : List Nat)
    (hA : ∀ k n c, c.length < 16 → A.dec k n c = none)
    (frame : List Nat) (hf : frame.length < 12) :
    decrypt_message A key frame = none ∧
    (∀ g : List Nat, A.dec key (g.take 12) (g.drop 12) = none →
      decrypt_message A key g = none) ∧
    (∀ frames : List (List Nat), (udp_listener A key frames).length = frames.length) := by
  refine ⟨?_, fun g hg => hg, fun frames => List.length_map frames _⟩
  unfold decrypt_message
  exact hA _ _ _ (by simp; omega)

/-- Witness for C4 at a concrete 3-byte frame and a concrete tampered frame. -/
theorem decrypt_failure_is_contained_witness :
    decrypt_message tagScheme [3] [9, 9, 9] = none ∧
    decrypt_message tagScheme [3] (List.replicate 12 7 ++ List.replicate 16 1) = none ∧
    (udp_listener tagScheme [3] [[9, 9, 9], List.replicate 12 7]).length = 2 := by
  have h := decrypt_failure_is_contained tagScheme [3] tagScheme_dec_short [9, 9, 9] (by decide)
  exact ⟨h.1, h.2.1 _ (by decide), h.2.2 _⟩

/-! ## Brute-force client (`p2p_chat.py`) -/

/-- Constant `LOCAL_PORT` from `p2p_chat.py`. -/
def LOCAL_PORT : Nat := 5000

/-- Constant `MIN_PORT_RANGE` from `p2p_chat.py`. -/
def MIN_PORT_RANGE : Nat := 10000

/-- Constant `MAX_PORT_RANGE` from `p2p_chat.py`. -/
def MAX_PORT_RANGE : Nat := 65535

/-- Constant `PORT_ATTEMPT_BATCH` from `p2p_chat.py`. -/
def PORT_ATTEMPT_BATCH : Nat := 200

/-- A decoded inbound JSON message, as inspected by
`P2PChat.listen_for_messages`: the `type` tag together with the fields the
handler reads.  `malformed` covers invalid JSON and messages whose field
accesses raise (both are caught and dropped by the source). -/
inductive ChatMsg
  | heartbeat (sender_ip : String)
  | ack (sender_ip : String)
  | chat (content : String)
  | malformed
deriving DecidableEq

/-- One datagram given to `listen_for_messages` by `recvfrom`: the decoded
message and the observed source address `addr = (srcIp, srcPort)`. -/
structure Incoming where
  msg : ChatMsg
  srcIp : String
  srcPort : Nat
deriving DecidableEq

/-- The mutable state of a `P2PChat` object that `listen_for_messages`
touches, plus the list of datagrams it sent (payload tag and target). -/
structure ChatState where
  remote_port : Option Nat
  connected : Bool
  sends : List (ChatMsg × Addr)
deriving DecidableEq

/-- One iteration of `P2PChat.listen_for_messages` on a received datagram:
a `heartbeat` whose `sender_ip` equals the configured peer IP is answered
with an `ack` to the observed source address and stores that source port in
`self.remote_port`; an `ack` from the peer stores the source port; both set
the `connected` event; everything else is dropped. -/
def listenStep (my_public_ip peer_public_ip : String) (s : ChatState) (d : Incoming) :
    ChatState :=
  match d.msg with
  | .heartbeat sip =>
    if sip = peer_public_ip then
      { s with sends := s.sends ++ [(ChatMsg.ack my_public_ip, (d.srcIp, d.srcPort))],
               remote_port := some d.srcPort, connected := true }
    else s
  | .ack sip =>
    if sip = peer_public_ip then
      { s with remote_port := some d.srcPort, connected := true }
    else s
  | .chat _ => s
  | .malformed => s

/-- Function `P2PChat.listen_for_messages` over the finite list of datagrams received
while the loop runs. -/
def listen_for_messages (my_public_ip peer_public_ip : String)
    (ds : List Incoming) : ChatState :=
  ds.foldl (listenStep my_public_ip peer_public_ip)
    { remote_port := none, connected := false, sends := [] }

/-- C3 counterexample: two heartbeats from the peer's IP but different source
ports.  The first confirmation stores port 1111, yet the later datagram from
a different source address overwrites the stored remote endpoint with 2222,
so the endpoint is not "written at most once, first confirmation wins". -/
theorem remote_port_overwritten_counterexample :
    (listen_for_messages "me" "peer"
      [⟨ChatMsg.heartbeat "peer", "peer", 1111⟩]).remote_port = some 1111 ∧
    (listen_for_messages "me" "peer"
      [⟨ChatMsg.heartbeat "peer", "peer", 1111⟩,
       ⟨ChatMsg.heartbeat "peer", "peer", 2222⟩]).remote_port = some 2222 ∧
    (2222 : Nat) ≠ 1111 := by
  refine ⟨rfl, rfl, by decide⟩

/-- C3 amended: every matching heartbeat or ack overwrites `remote_port` with
that datagram's observed source port (last confirmation wins) and sets the
connected event; datagrams that are not a heartbeat/ack from the configured
peer IP leave the state unchanged. -/
theorem remote_port_last_confirmation_wins (my peer : String) (s : ChatState) (d : Incoming)
    (hmatch : d.msg = ChatMsg.heartbeat peer ∨ d.msg = ChatMsg.ack peer) :
    (listenStep my peer s d).remote_port = some d.srcPort ∧
    (listenStep my peer s d).connected = true := by
  rcases hmatch with h | h <;> simp [listenStep, h]

/-- Witness for the amended C3 at a concrete state and datagram. -/
theorem remote_port_last_confirmation_wins_witness :
    (listenStep "me" "peer"
      { remote_port := some 1111, connected := true, sends := [] }
      ⟨ChatMsg.ack "peer", "peer", 2222⟩).remote_port = some 2222 ∧
    (listenStep "me" "peer"
      { remote_port := some 1111, connected := true, sends := [] }
      ⟨ChatMsg.ack "peer", "peer", 2222⟩).connected = true :=
  remote_port_last_confirmation_wins "me" "peer"
    { remote_port := some 1111, connected := true, sends := [] }
    ⟨ChatMsg.ack "peer", "peer", 2222⟩ (Or.inr rfl)

/-- The inner `for port in range(current_port, batch_end)` loop of
`P2PChat.brute_force_connect`: send one heartbeat per candidate port,
checking `self.connected.is_set()` after each send.  The connected event is
set concurrently by the listener, so it is modelled by the oracle
`conn : Nat → Bool` giving the value observed by the check made after the
`n`-th heartbeat send of the call (sends counted from 1 across batches);
`sent` accumulates the ports already sent to. -/
def sendBatch (conn : Nat → Bool) : List Nat → List Nat → Bool × List Nat
  | sent, [] => (false, sent)
  | sent, p :: ps =>
    if conn (sent ++ [p]).length then (true, sent ++ [p])
    else sendBatch conn (sent ++ [p]) ps

/-- The outer `while current_port <= MAX_PORT_RANGE` loop of
`P2PChat.brute_force_connect`: each pass scans the batch
`range(current_port, min(current_port + PORT_ATTEMPT_BATCH, MAX_PORT_RANGE + 1))`
and then advances `current_port` to the batch end; once the range is
exhausted the call returns `False`.  The loop body runs at most 278 times
(55536 ports in batches of 200), so the structural `fuel` argument, always
called with at least that much, is only a termination device; note that
`fuel = 0` and `current_port > MAX_PORT_RANGE` return the same value, so a
sufficiently fuelled run never hits the fuel bound. -/
def bruteLoop (conn : Nat → Bool) : Nat → Nat → List Nat → Bool × List Nat
  | 0, _, sent => (false, sent)
  | fuel + 1, current_port, sent =>
    if current_port ≤ MAX_PORT_RANGE then
      let r := sendBatch conn sent
        (List.range' current_port
          (min (current_port + PORT_ATTEMPT_BATCH) (MAX_PORT_RANGE + 1) - current_port))
      if r.1 then r
      else bruteLoop conn fuel
        (min (current_port + PORT_ATTEMPT_BATCH) (MAX_PORT_RANGE + 1)) r.2
    else (false, sent)

/-- Function `P2PChat.brute_force_connect`: returns `False` immediately for Peer A,
otherwise scans from `MIN_PORT_RANGE`.  The result carries the boolean the
coroutine returns and the list of ports heartbeats were sent to, in order. -/
def brute_force_connect (is_peer_a : Bool) (conn : Nat → Bool) : Bool × List Nat :=
  if is_peer_a then (false, []) else bruteLoop conn 300 MIN_PORT_RANGE []

/-- Behaviour of one batch: the scan stops at the first confirmed check and
otherwise sends to every port of the batch, with all checks returning
false. -/
theorem sendBatch_spec (conn : Nat → Bool) (ps : List Nat) : ∀ sent : List Nat,
    ∃ k, k ≤ ps.length ∧
      (sendBatch conn sent ps).2 = sent ++ ps.take k ∧
      ((sendBatch conn sent ps).1 = true →
        conn (sent.length + k) = true ∧
        ∀ m, sent.length < m → m < sent.length + k → conn m = false) ∧
      ((sendBatch conn sent ps).1 = false →
        k = ps.length ∧
        ∀ m, sent.length < m → m ≤ sent.length + k → conn m = false) := by
  induction ps with
  | nil =>
    intro sent
    refine ⟨0, by simp, by simp [sendBatch], ?_, ?_⟩
    · intro h
      rw [sendBatch] at h
      simp at h
    · intro _
      exact ⟨by simp, fun m h1 h2 => (by omega : False).elim⟩
  | cons p ps ih =>
    intro sent
    by_cases h : conn (sent ++ [p]).length = true
    · refine ⟨1, by simp, ?_, ?_, ?_⟩
      · rw [sendBatch, if_pos h]
        simp
      · intro _
        constructor
        · simpa using h
        · intro m h1 h2
          exact (by omega : False).elim
      · intro hfalse
        rw [sendBatch, if_pos h] at hfalse
        simp at hfalse
    · obtain ⟨k, hk, h2, ht, hf⟩ := ih (sent ++ [p])
      have hstep : sendBatch conn sent (p :: ps) = sendBatch conn (sent ++ [p]) ps := by
        rw [sendBatch, if_neg h]
      have hlen : (sent ++ [p]).length = sent.length + 1 := by simp
      have hconn : conn (sent.length + 1) = false := by simpa using h
      refine ⟨k + 1, by simpa using Nat.add_le_add_right hk 1, ?_, ?_, ?_⟩
      · rw [hstep, h2]
        simp [List.append_assoc]
      · intro htrue
        rw [hstep] at htrue
        obtain ⟨hc, hall⟩ := ht htrue
        constructor
        · rw [hlen] at hc
          have : sent.length + 1 + k = sent.length + (k + 1) := by omega
          rwa [this] at hc
        · intro m h1 h2
          by_cases hm : m = sent.length + 1
          · rwa [hm]
          · exact hall m (by omega) (by omega)
      · intro hfalse
        rw [hstep] at hfalse
        obtain ⟨hkk, hall⟩ := hf hfalse
        constructor
        · simp [hkk]
        · intro m h1 h2
          by_cases hm : m = sent.length + 1
          · rwa [hm]
          · exact hall m (by omega) (by omega)

/-- Behaviour of the whole scan from `cur`: writing the remaining port space
as `List.range' cur (65536 - cur)`, the loop sends to a prefix of it, stops
at the first confirmed check, and returns `False` exactly when the space is
exhausted with every check false.  The fuel hypothesis `65536 - cur ≤ 200 * fuel`
guarantees the structural fuel is never the reason the loop stops. -/
theorem bruteLoop_spec (conn : Nat → Bool) : ∀ (fuel cur : Nat) (sent : List Nat),
    cur ≤ 65536 → 65536 - cur ≤ 200 * fuel →
    ∃ K, K ≤ 65536 - cur ∧
      (bruteLoop conn fuel cur sent).2 = sent ++ (List.range' cur (65536 - cur)).take K ∧
      ((bruteLoop conn fuel cur sent).1 = true →
        conn (sent.length + K) = true ∧
        ∀ m, sent.length < m → m < sent.length + K → conn m = false) ∧
      ((bruteLoop conn fuel cur sent).1 = false →
        K = 65536 - cur ∧
        ∀ m, sent.length < m → m ≤ sent.length + K → conn m = false) := by
  intro fuel
  induction fuel with
  | zero =>
    intro cur sent hcur hfuel
    refine ⟨0, by omega, by simp [bruteLoop], ?_, ?_⟩
    · intro h
      rw [bruteLoop] at h
      simp at h
    · intro _
      exact ⟨by omega, fun m h1 h2 => (by omega : False).elim⟩
  | succ fuel ih =>
    intro cur sent hcur hfuel
    have hMAX : MAX_PORT_RANGE = 65535 := rfl
    have hBATCH : PORT_ATTEMPT_BATCH = 200 := rfl
    by_cases hc : cur ≤ MAX_PORT_RANGE
    · rw [bruteLoop, if_pos hc]
      set be := min (cur + PORT_ATTEMPT_BATCH) (MAX_PORT_RANGE + 1) with hbe
      set L := List.range' cur (be - cur) with hLdef
      have hbe1 : cur < be := by omega
      have hbe2 : be ≤ 65536 := by omega
      have hL : L.length = be - cur := by
        rw [hLdef]
        exact List.length_range' ..
      have hsplit : List.range' cur (65536 - cur) = L ++ List.range' be (65536 - be) := by
        rw [hLdef, show 65536 - cur = (65536 - be) + (be - cur) from by omega,
          ← List.range'_append]
        simp only [one_mul]
        rw [show cur + (be - cur) = be from by omega]
      obtain ⟨k, hk, hsb2, hsbt, hsbf⟩ := sendBatch_spec conn L sent
      cases hb : (sendBatch conn sent L).1 with
      | true =>
        simp only [hb, if_pos]
        refine ⟨k, by omega, ?_, ?_, ?_⟩
        · rw [hsplit, List.take_append_of_le_length (by omega : k ≤ L.length)]
          exact hsb2
        · intro _
          exact hsbt hb
        · intro hfalse
          exact absurd hfalse (by simp)
      | false =>
        simp only [hb, Bool.false_eq_true, if_false]
        obtain ⟨hkfull, hallf⟩ := hsbf hb
        have hkval : k = be - cur := hkfull.trans hL
        have hsent2 : (sendBatch conn sent L).2 = sent ++ L := by
          rw [hsb2, hkfull, List.take_length]
        have hs2len : (sendBatch conn sent L).2.length = sent.length + (be - cur) := by
          rw [hsent2]
          simp [hL]
        obtain ⟨K2, hK2le, hK2eq, hK2t, hK2f⟩ :=
          ih be ((sendBatch conn sent L).2) (by omega) (by omega)
        refine ⟨(be - cur) + K2, by omega, ?_, ?_, ?_⟩
        · rw [hK2eq, hsent2, hsplit,
            show be - cur = L.length from hL.symm, List.take_append]
          simp [List.append_assoc]
        · intro htrue
          obtain ⟨hc2, hall2⟩ := hK2t htrue
          rw [hs2len] at hc2 hall2
          constructor
          · rw [show sent.length + (be - cur + K2) = sent.length + (be - cur) + K2 from by omega]
            exact hc2
          · intro m h1 h2
            by_cases hm : m ≤ sent.length + (be - cur)
            · exact hallf m h1 (by omega)
            · exact hall2 m (by omega) (by omega)
        · intro hfalse
          obtain ⟨hK2val, hall2⟩ := hK2f hfalse
          rw [hs2len] at hall2
          constructor
          · omega
          · intro m h1 h2
            by_cases hm : m ≤ sent.length + (be - cur)
            · exact hallf m h1 (by omega)
            · exact hall2 m (by omega) (by omega)
    · rw [bruteLoop, if_neg hc]
      refine ⟨0, by omega, by simp, ?_, ?_⟩
      · intro h
        simp at h
      · intro _
        exact ⟨by omega, fun m h1 h2 => (by omega : False).elim⟩

/-- C5: brute-force mode sends heartbeats to consecutive ports starting at
`MIN_PORT_RANGE` with no port skipped or repeated across batches (the sent
list is always a prefix of the full range `10000..65535`); it checks the
connected event after each send and returns `True` at the first confirmed
check (so every earlier check was false and the last check fired); and it
returns `False` exactly when all 55536 ports have been sent to with every
check false. -/
theorem brute_force_covers_range (conn : Nat → Bool) :
    ((brute_force_connect false conn).2 =
      (List.range' MIN_PORT_RANGE (MAX_PORT_RANGE + 1 - MIN_PORT_RANGE)).take
        (brute_force_connect false conn).2.length) ∧
    ((brute_force_connect false conn).1 = false →
      (brute_force_connect false conn).2 =
        List.range' MIN_PORT_RANGE (MAX_PORT_RANGE + 1 - MIN_PORT_RANGE) ∧
      ∀ m, 1 ≤ m → m ≤ MAX_PORT_RANGE + 1 - MIN_PORT_RANGE → conn m = false) ∧
    ((brute_force_connect false conn).1 = true →
      conn (brute_force_connect false conn).2.length = true ∧
      ∀ m, 1 ≤ m → m < (brute_force_connect false conn).2.length → conn m = false) := by
  obtain ⟨K, hKle, h2, ht, hf⟩ := bruteLoop_spec conn 300 10000 [] (by omega) (by omega)
  have hbf : brute_force_connect false conn = bruteLoop conn 300 10000 [] := rfl
  have hconst : MAX_PORT_RANGE + 1 - MIN_PORT_RANGE = 65536 - 10000 := rfl
  have hconst2 : MIN_PORT_RANGE = 10000 := rfl
  simp only [hbf, hconst, hconst2]
  simp only [List.nil_append] at h2
  have hlen : (bruteLoop conn 300 10000 []).2.length = K := by
    rw [h2, List.length_take, List.length_range']
    omega
  refine ⟨by rw [hlen]; exact h2, ?_, ?_⟩
  · intro hfalse
    obtain ⟨hKval, hall⟩ := hf hfalse
    simp only [List.length_nil, Nat.zero_add] at hall
    constructor
    · rw [h2, hKval]
      exact List.take_of_length_le (le_of_eq (List.length_range' ..))
    · intro m h1 hm
      exact hall m (by omega) (by omega)
  · intro htrue
    obtain ⟨hc, hall⟩ := ht htrue
    simp only [List.length_nil, Nat.zero_add] at hc hall
    rw [hlen]
    exact ⟨hc, fun m h1 hm => hall m (by omega) (by omega)⟩

/-- Witness for C5: with a connected event that is already set at the first
check, the scan returns success having sent exactly one heartbeat (to port
10000), and that single check is the confirmed one. -/
theorem brute_force_covers_range_witness :
    (brute_force_connect false (fun n => decide (1 ≤ n))).1 = true ∧
    (fun n => decide (1 ≤ n))
      ((brute_force_connect false (fun n => decide (1 ≤ n))).2.length) = true ∧
    (brute_force_connect false (fun n => decide (1 ≤ n))).2 =
      (List.range' MIN_PORT_RANGE (MAX_PORT_RANGE + 1 - MIN_PORT_RANGE)).take
        (brute_force_connect false (fun n => decide (1 ≤ n))).2.length := by
  have h := brute_force_covers_range (fun n => decide (1 ≤ n))
  exact ⟨by decide, (h.2.2 (by decide)).1, h.1⟩

/-! ## Directed hole punching (`src/p2p/client.py`) -/

/-- One iteration of the main loop of `establish_connection`: `after2s` is
whether `time.time() - start_time > 2` held at the top of the iteration
(monotone in a real run), and `msg` is `some (payload, addr)` when
`recvfrom` returned a datagram, `none` on `socket.timeout`. -/
structure PunchEvent where
  after2s : Bool
  msg : Option (String × Addr)
deriving DecidableEq

/-- The local variables of `establish_connection` plus the datagrams it sent
(payload and target, in order). -/
structure EstState where
  connection_established : Bool
  received_punch : Bool
  sent_punch : Bool
  sends : List (String × Addr)
deriving DecidableEq

/-- Helper `send_punch_packets` inside `establish_connection`: a burst of 5 `PUNCH`
datagrams to the peer endpoint. -/
def punchBurst (peer_endpoint : Addr) : List (String × Addr) :=
  List.replicate 5 ("PUNCH", peer_endpoint)

/-- One iteration of `establish_connection`'s `while` loop.  The loop breaks
once `connection_established` is set, so an established state absorbs all
later events.  Otherwise: after 2 seconds the additional punch burst is sent
once and `sent_punch` set; a received `PUNCH` is answered with `ACK` to the
packet's observed source address and sets `received_punch`; a received `ACK`
sets `connection_established`; and in CGNAT mode the iteration also
establishes whenever a datagram was received with both `received_punch` and
`sent_punch` true. -/
def establishStep (cgnat_mode : Bool) (peer_endpoint : Addr) (s : EstState)
    (e : PunchEvent) : EstState :=
  if s.connection_established then s
  else
    let s1 := if e.after2s && !s.sent_punch then
        { s with sent_punch := true, sends := s.sends ++ punchBurst peer_endpoint }
      else s
    match e.msg with
    | none => s1
    | some (m, addr) =>
      if m = "PUNCH" then
        let s2 := { s1 with sends := s1.sends ++ [("ACK", addr)], received_punch := true }
        if cgnat_mode && s2.received_punch && s2.sent_punch then
          { s2 with connection_established := true }
        else s2
      else if m = "ACK" then { s1 with connection_established := true }
      else
        if cgnat_mode && s1.received_punch && s1.sent_punch then
          { s1 with connection_established := true }
        else s1

/-- Function `establish_connection` from `src/p2p/client.py` over the finite list of
loop iterations that run before the `punch_timeout` budget elapses: it first
sends the initial punch burst (which does NOT set the `sent_punch` flag),
then folds the loop body over the iterations. -/
def establish_connection (cgnat_mode : Bool) (peer_endpoint : Addr)
    (events : List PunchEvent) : EstState :=
  events.foldl (establishStep cgnat_mode peer_endpoint)
    { connection_established := false, received_punch := false, sent_punch := false,
      sends := punchBurst peer_endpoint }

/-- Function `send_keepalive` from `src/p2p/client.py`: every iteration sends a
`KEEPALIVE` datagram to the `peer_endpoint` argument — which `main` always
binds to the rendezvous-resolved endpoint, never to an address observed
during hole punching. -/
def send_keepalive (peer_endpoint : Addr) (iterations : Nat) : List (String × Addr) :=
  List.replicate iterations ("KEEPALIVE", peer_endpoint)

/-- The chat send path in `main`: `udp_socket.sendto(message.encode(), peer_endpoint)`. -/
def chat_send (peer_endpoint : Addr) (message : String) : String × Addr :=
  (message, peer_endpoint)

/-- Establishment is terminal: once `connection_established` is set, no
later event changes the state. -/
theorem establishStep_absorbs (cgnat_mode : Bool) (peer_endpoint : Addr) (s : EstState)
    (e : PunchEvent) (h : s.connection_established = true) :
    establishStep cgnat_mode peer_endpoint s e = s := by
  unfold establishStep
  rw [if_pos h]

/-- Establishment is monotone along any sequence of events. -/
theorem establish_foldl_mono (cgnat_mode : Bool) (peer_endpoint : Addr) :
    ∀ (evs : List PunchEvent) (s : EstState), s.connection_established = true →
      (evs.foldl (establishStep cgnat_mode peer_endpoint) s).connection_established = true := by
  intro evs
  induction evs with
  | nil => intro s h; exact h
  | cons e evs ih =>
    intro s h
    rw [List.foldl_cons, establishStep_absorbs cgnat_mode peer_endpoint s e h]
    exact ih s h

/-- Any `ACK` datagram sent by one `establishStep` that was not already in
the pre-state's send list is addressed to the source of the `PUNCH` received
in that step. -/
theorem establishStep_ack_source (cgnat_mode : Bool) (peer_endpoint : Addr) (s : EstState)
    (e : PunchEvent) (a : Addr)
    (h : ("ACK", a) ∈ (establishStep cgnat_mode peer_endpoint s e).sends) :
    ("ACK", a) ∈ s.sends ∨ e.msg = some ("PUNCH", a) := by
  by_cases hest : s.connection_established = true
  · rw [establishStep, if_pos hest] at h
    exact Or.inl h
  · rw [establishStep, if_neg hest] at h
    simp only at h
    set s1 : EstState := if e.after2s && !s.sent_punch then
        { s with sent_punch := true, sends := s.sends ++ punchBurst peer_endpoint }
      else s with hs1def
    have hs1 : ∀ b : Addr, ("ACK", b) ∈ s1.sends → ("ACK", b) ∈ s.sends := by
      intro b hb
      rw [hs1def] at hb
      split at hb
      · simp only at hb
        rcases List.mem_append.mp hb with h1 | h1
        · exact h1
        · rcases List.mem_replicate.mp h1 with ⟨-, h2⟩
          have h3 := congrArg Prod.fst h2
          simp at h3
      · exact hb
    rcases hmsg : e.msg with - | ⟨m, addr⟩
    · rw [hmsg] at h
      exact Or.inl (hs1 a h)
    · rw [hmsg] at h
      simp only at h
      by_cases hm : m = "PUNCH"
      · rw [if_pos hm] at h
        have hmem : ("ACK", a) ∈ s1.sends ++ [("ACK", addr)] := by
          split at h
          · simpa using h
          · simpa using h
        rcases List.mem_append.mp hmem with h1 | h1
        · exact Or.inl (hs1 a h1)
        · have ha : a = addr := by
            have h2 := List.mem_singleton.mp h1
            exact congrArg Prod.snd h2
          exact Or.inr (by rw [hm, ha])
      · rw [if_neg hm] at h
        by_cases hm2 : m = "ACK"
        · rw [if_pos hm2] at h
          exact Or.inl (hs1 a (by simpa using h))
        · rw [if_neg hm2] at h
          have hmem : ("ACK", a) ∈ s1.sends := by
            split at h
            · simpa using h
            · exact h
          exact Or.inl (hs1 a hmem)

/-- C1 amended: every `Ack` the directed state machine sends is addressed to
the observed source of a received `Punch`; receiving an `Ack` transitions to
Established; but no observed address is stored as a confirmed remote
endpoint — the keepalive sender and the chat send path keep targeting the
`peer_endpoint` that `main` resolved from the rendezvous server. -/
theorem directed_ack_observed_but_endpoint_unchanged (cgnat_mode : Bool)
    (peer_endpoint : Addr) (evs : List PunchEvent) (n : Nat) (msg : String) :
    (∀ a : Addr,
      ("ACK", a) ∈ (establish_connection cgnat_mode peer_endpoint evs).sends →
      ∃ e ∈ evs, e.msg = some ("PUNCH", a)) ∧
    ((∃ e ∈ evs, ∃ a : Addr, e.msg = some ("ACK", a)) →
      (establish_connection cgnat_mode peer_endpoint evs).connection_established = true) ∧
    (∀ p ∈ send_keepalive peer_endpoint n, p.2 = peer_endpoint) ∧
    (chat_send peer_endpoint msg).2 = peer_endpoint := by
  refine ⟨?_, ?_, ?_, rfl⟩
  · have main : ∀ (l : List PunchEvent) (s : EstState) (a : Addr),
        ("ACK", a) ∈ (l.foldl (establishStep cgnat_mode peer_endpoint) s).sends →
        ("ACK", a) ∈ s.sends ∨ ∃ e ∈ l, e.msg = some ("PUNCH", a) := by
      intro l
      induction l with
      | nil => intro s a h; exact Or.inl h
      | cons e l ih =>
        intro s a h
        rw [List.foldl_cons] at h
        rcases ih _ a h with h1 | h1
        · rcases establishStep_ack_source cgnat_mode peer_endpoint s e a h1 with h2 | h2
          · exact Or.inl h2
          · exact Or.inr ⟨e, List.mem_cons_self .., h2⟩
        · rcases h1 with ⟨e2, he2, hm⟩
          exact Or.inr ⟨e2, List.mem_cons_of_mem _ he2, hm⟩
    intro a h
    rcases main evs _ a h with h1 | h1
    · simp only at h1
      rcases List.mem_replicate.mp h1 with ⟨-, h2⟩
      have h3 := congrArg Prod.fst h2
      simp at h3
    · exact h1
  · rintro ⟨e, hmem, a, hmsg⟩
    obtain ⟨l1, l2, rfl⟩ := List.append_of_mem hmem
    unfold establish_connection
    rw [List.foldl_append, List.foldl_cons]
    apply establish_foldl_mono
    set s := l1.foldl (establishStep cgnat_mode peer_endpoint)
      { connection_established := false, received_punch := false, sent_punch := false,
        sends := punchBurst peer_endpoint } with hs
    by_cases hest : s.connection_established = true
    · rw [establishStep_absorbs cgnat_mode peer_endpoint s e hest]
      exact hest
    · rw [establishStep, if_neg hest, hmsg]
      simp
  · intro p hp
    rcases List.mem_replicate.mp hp with ⟨-, h2⟩
    rw [h2]

/-- Witness for the amended C1 at a concrete peer endpoint and trace. -/
theorem directed_ack_observed_but_endpoint_unchanged_witness :
    (∃ e ∈ [PunchEvent.mk false (some ("PUNCH", ("9.9.9.9", 5555)))],
      e.msg = some ("PUNCH", (("9.9.9.9", 5555) : Addr))) ∧
    (establish_connection false ("9.9.9.9", 4000)
      [PunchEvent.mk false (some ("ACK", ("9.9.9.9", 5555)))]).connection_established = true ∧
    (∀ p ∈ send_keepalive ("9.9.9.9", 4000) 2, p.2 = (("9.9.9.9", 4000) : Addr)) := by
  refine ⟨?_, ?_, ?_⟩
  · exact (directed_ack_observed_but_endpoint_unchanged false ("9.9.9.9", 4000)
      [PunchEvent.mk false (some ("PUNCH", ("9.9.9.9", 5555)))] 2 "hey").1
      ("9.9.9.9", 5555) (by decide)
  · exact (directed_ack_observed_but_endpoint_unchanged false ("9.9.9.9", 4000)
      [PunchEvent.mk false (some ("ACK", ("9.9.9.9", 5555)))] 2 "hey").2.1
      ⟨_, List.mem_singleton.mpr rfl, ("9.9.9.9", 5555), rfl⟩
  · exact (directed_ack_observed_but_endpoint_unchanged false ("9.9.9.9", 4000)
      [] 2 "hey").2.2.1

/-- C1 counterexample: a session in which the punch handshake is confirmed
via an observed source address (port 5555) that differs from the
rendezvous-resolved peer endpoint (port 4000).  The `Ack` reply does go to
the observed source and the machine reaches Established, but the observed
address is not stored anywhere: every subsequent keepalive (and chat send)
still targets the original rendezvous endpoint, not the observed one. -/
theorem directed_confirmed_endpoint_counterexample :
    (establish_connection false ("9.9.9.9", 4000)
      [PunchEvent.mk false (some ("PUNCH", ("9.9.9.9", 5555))),
       PunchEvent.mk false (some ("ACK", ("9.9.9.9", 5555)))]).connection_established = true ∧
    ("ACK", (("9.9.9.9", 5555) : Addr)) ∈
      (establish_connection false ("9.9.9.9", 4000)
        [PunchEvent.mk false (some ("PUNCH", ("9.9.9.9", 5555))),
         PunchEvent.mk false (some ("ACK", ("9.9.9.9", 5555)))]).sends ∧
    send_keepalive ("9.9.9.9", 4000) 3 =
      List.replicate 3 ("KEEPALIVE", ("9.9.9.9", 4000)) ∧
    chat_send ("9.9.9.9", 4000) "hello" = ("hello", ("9.9.9.9", 4000)) ∧
    (("9.9.9.9", 5555) : Addr) ≠ ("9.9.9.9", 4000) := by
  decide

/-- C7 counterexample: CGNAT mode enabled, the initial punch burst sent, and
one `PUNCH` received (within the first 2 seconds) — yet the machine is not
Established, because the `sent_punch` flag is only set by the additional
burst sent after the 2-second mark, not by the initial burst. -/
theorem cgnat_initial_burst_counterexample :
    (establish_connection true ("8.8.8.8", 4000)
      [PunchEvent.mk false (some ("PUNCH", ("8.8.8.8", 5555)))]).sends.take 5 =
        punchBurst ("8.8.8.8", 4000) ∧
    (establish_connection true ("8.8.8.8", 4000)
      [PunchEvent.mk false (some ("PUNCH", ("8.8.8.8", 5555)))]).received_punch = true ∧
    (establish_connection true ("8.8.8.8", 4000)
      [PunchEvent.mk false (some ("PUNCH", ("8.8.8.8", 5555)))]).connection_established
        = false := by
  decide

/-- C7 amended: in CGNAT mode, Established is reached once a punch-family
packet is received at an iteration by which the additional (post-2-second)
punch burst has been sent — in particular receiving a `PUNCH` in any
iteration whose 2-second mark has passed always establishes, whatever
happened before. -/
theorem cgnat_established_after_sent_and_received (peer_endpoint a : Addr)
    (evs : List PunchEvent) :
    (establish_connection true peer_endpoint
      (evs ++ [PunchEvent.mk true (some ("PUNCH", a))])).connection_established = true := by
  unfold establish_connection
  rw [List.foldl_append, List.foldl_cons, List.foldl_nil]
  set s := evs.foldl (establishStep true peer_endpoint)
    { connection_established := false, received_punch := false, sent_punch := false,
      sends := punchBurst peer_endpoint } with hs
  by_cases hest : s.connection_established = true
  · rw [establishStep_absorbs true peer_endpoint s _ hest]
    exact hest
  · rw [establishStep, if_neg hest]
    simp only
    by_cases hsp : s.sent_punch = true <;> simp [hsp]

/-- Outcome of one `requests.get(SERVER_URL + "/get_peer/...")` attempt in
`discover_peer`: a 200 with the peer's `{ip, port}` body, a 404, another
4xx/5xx status (whose `raise_for_status` raises an exception that the
`except` clause catches), a transport-level `RequestException`, or a 2xx/3xx
status other than 200 (no branch applies, the attempt just ends). -/
inductive HttpResp
  | ok (ip : String) (port : Nat)
  | notFound
  | httpFailure
  | netFailure
  | otherStatus
deriving DecidableEq

/-- Default `max_attempts` of `discover_peer`. -/
def max_attempts : Nat := 30

/-- Default `delay` of `discover_peer` (seconds). -/
def retry_delay : Nat := 2

/-- The `for attempt in range(max_attempts)` loop of `discover_peer`,
structurally recursing on the number of remaining attempts: `resp i` is the
outcome of the i-th HTTP attempt (0-based).  Returns the resolved endpoint
(or `none` after the budget is exhausted) together with the list of
`time.sleep` durations taken; a sleep of `delay` seconds is taken after a
404 or a caught exception, but only while `attempt < max_attempts - 1`. -/
def discoverLoop (resp : Nat → HttpResp) : Nat → Nat → Option Addr × List Nat
  | _, 0 => (none, [])
  | attempt, rem + 1 =>
    match resp attempt with
    | .ok ip port => (some (ip, port), [])
    | .notFound =>
      ((discoverLoop resp (attempt + 1) rem).1,
        (if attempt + 1 < max_attempts then [retry_delay] else []) ++
          (discoverLoop resp (attempt + 1) rem).2)
    | .httpFailure =>
      ((discoverLoop resp (attempt + 1) rem).1,
        (if attempt + 1 < max_attempts then [retry_delay] else []) ++
          (discoverLoop resp (attempt + 1) rem).2)
    | .netFailure =>
      ((discoverLoop resp (attempt + 1) rem).1,
        (if attempt + 1 < max_attempts then [retry_delay] else []) ++
          (discoverLoop resp (attempt + 1) rem).2)
    | .otherStatus =>
      ((discoverLoop resp (attempt + 1) rem).1, (discoverLoop resp (attempt + 1) rem).2)

/-- Function `discover_peer(target_username)` from `src/p2p/client.py` with its
default budget of 30 attempts, abstracted over the sequence of HTTP
outcomes. -/
def discover_peer (resp : Nat → HttpResp) : Option Addr × List Nat :=
  discoverLoop resp 0 max_attempts

/-- If every attempt in the remaining window is unsuccessful, the loop falls
through and returns `None`. -/
theorem discoverLoop_none (resp : Nat → HttpResp) : ∀ (rem attempt : Nat),
    (∀ k, k < rem → ∀ ip port, resp (attempt + k) ≠ HttpResp.ok ip port) →
    (discoverLoop resp attempt rem).1 = none := by
  intro rem
  induction rem with
  | zero => intro attempt _; rfl
  | succ rem ih =>
    intro attempt hall
    have hnext : ∀ k, k < rem → ∀ ip port, resp (attempt + 1 + k) ≠ HttpResp.ok ip port := by
      intro k hk ip port
      rw [show attempt + 1 + k = attempt + (k + 1) from by omega]
      exact hall (k + 1) (by omega) ip port
    rw [discoverLoop]
    rcases hr : resp attempt with ⟨ip, port⟩ | - | - | - | -
    · exact absurd hr (hall 0 (by omega) ip port)
    all_goals simpa using ih (attempt + 1) hnext
/-- If attempt `i` (within the window) is the first successful one, the loop
returns its endpoint. -/
theorem discoverLoop_first_ok (resp : Nat → HttpResp) : ∀ (rem attempt i : Nat)
    (ip : String) (port : Nat), i < rem →
    (∀ k, k < i → ∀ ip2 port2, resp (attempt + k) ≠ HttpResp.ok ip2 port2) →
    resp (attempt + i) = HttpResp.ok ip port →
    (discoverLoop resp attempt rem).1 = some (ip, port) := by
  intro rem
  induction rem with
  | zero => intro attempt i ip port hi; omega
  | succ rem ih =>
    intro attempt i ip port hi hbefore hok
    rw [discoverLoop]
    rcases i with - | i
    · rw [show attempt + 0 = attempt from by omega] at hok
      rw [hok]
    · have h0 : resp attempt ≠ HttpResp.ok ip port := by
        have := hbefore 0 (by omega)
        simpa using this ip port
      have hnext : ∀ k, k < i → ∀ ip2 port2, resp (attempt + 1 + k) ≠ HttpResp.ok ip2 port2 := by
        intro k hk ip2 port2
        rw [show attempt + 1 + k = attempt + (k + 1) from by omega]
        exact hbefore (k + 1) (by omega) ip2 port2
      have hok2 : resp (attempt + 1 + i) = HttpResp.ok ip port := by
        rw [show attempt + 1 + i = attempt + (i + 1) from by omega]
        exact hok
      rcases hr : resp attempt with ⟨ip2, port2⟩ | - | - | - | -
      · exact absurd hr (by
          have := hbefore 0 (by omega)
          simpa using this ip2 port2)
      all_goals simpa using ih (attempt + 1) i ip port (by omega) hnext hok2

/-- Every sleep the loop takes lasts exactly `retry_delay` seconds. -/
theorem discoverLoop_delays (resp : Nat → HttpResp) : ∀ (rem attempt : Nat),
    ∀ d ∈ (discoverLoop resp attempt rem).2, d = retry_delay := by
  intro rem
  induction rem with
  | zero => intro attempt d hd; simp [discoverLoop] at hd
  | succ rem ih =>
    intro attempt d hd
    rw [discoverLoop] at hd
    rcases hr : resp attempt with ⟨ip, port⟩ | - | - | - | - <;>
      rw [hr] at hd <;> simp only at hd
    · simp at hd
    · rcases List.mem_append.mp hd with h1 | h1
      · split at h1 <;> simp_all
      · exact ih (attempt + 1) d h1
    · rcases List.mem_append.mp hd with h1 | h1
      · split at h1 <;> simp_all
      · exact ih (attempt + 1) d h1
    · rcases List.mem_append.mp hd with h1 | h1
      · split at h1 <;> simp_all
      · exact ih (attempt + 1) d h1
    · exact ih (attempt + 1) d hd

/-- C6: peer resolution makes at most 30 attempts with every inter-attempt
sleep fixed at 2 seconds; a 200 at the first attempt that is not preceded by
a success returns the peer's (ip, port) immediately (404s, other HTTP
failures and transport failures before it only cause retries), and the
result is NotFound (`none`) exactly when no attempt in the 30-attempt
budget succeeded. -/
theorem discover_peer_budget (resp : Nat → HttpResp) :
    (∀ i ip port, i < max_attempts →
      (∀ k, k < i → ∀ ip2 port2, resp k ≠ HttpResp.ok ip2 port2) →
      resp i = HttpResp.ok ip port →
      (discover_peer resp).1 = some (ip, port)) ∧
    ((∀ i, i < max_attempts → ∀ ip port, resp i ≠ HttpResp.ok ip port) →
      (discover_peer resp).1 = none) ∧
    (∀ d ∈ (discover_peer resp).2, d = retry_delay) := by
  refine ⟨?_, ?_, discoverLoop_delays resp max_attempts 0⟩
  · intro i ip port hi hbefore hok
    exact discoverLoop_first_ok resp max_attempts 0 i ip port hi
      (by simpa using hbefore) (by simpa using hok)
  · intro hall
    exact discoverLoop_none resp max_attempts 0 (by simpa using hall)

/-- Witness for C6: a 404 on the first attempt followed by a 200 on the
second resolves to the registered endpoint. -/
theorem discover_peer_budget_witness :
    (discover_peer (fun i => if i = 0 then HttpResp.notFound
      else HttpResp.ok "1.2.3.4" 41000)).1 = some ("1.2.3.4", 41000) ∧
    (discover_peer (fun _ => HttpResp.notFound)).1 = none := by
  constructor
  · exact (discover_peer_budget _).1 1 "1.2.3.4" 41000 (by decide)
      (by
        intro k hk ip2 port2
        rw [show k = 0 from by omega]
        simp)
      (by simp)
  · exact (discover_peer_budget _).2.1 (by intro i hi ip port; simp)

/-- One successful STUN response in `get_public_endpoint`'s `results` list:
the reported NAT type, external IP and external port (attempts whose
`stun.get_ip_info` raised or returned falsy ip/port are not appended). -/
structure StunResult where
  nat_type : String
  ip : String
  port : Nat
deriving DecidableEq

/-- The vote count of `ip0` in `Counter(r['ip'] for r in results)`. -/
def countIp (results : List StunResult) (ip0 : String) : Nat :=
  (results.filter (fun r => decide (r.ip = ip0))).length

/-- Model of `Counter(...).most_common(1)[0][0]` over the ips of `l` (with vote
counts taken in `results`): `most_common` sorts by count, stably, over the
counter's insertion order, so ties in the maximal count are won by the ip
seen first — equivalently, by the first element of the list whose ip attains
the maximal count, which is what this recursion computes (an element beats
everything after it unless something after it has a strictly larger
count). -/
def mostCommonIp (results : List StunResult) : List StunResult → Option String
  | [] => none
  | r :: rest =>
    match mostCommonIp results rest with
    | none => some r.ip
    | some y => if countIp results r.ip < countIp results y then some y else some r.ip

/-- Function `get_public_endpoint` from `src/p2p/client.py`: `attempts` holds one
entry per configured STUN server, `some` for a successful response and
`none` for a failed one, so `attempts.filterMap id` is the source's
`results` list.  With no successful response it falls back to the local
interface address with port 0 and NAT type "Unknown"; otherwise it returns
the first result carrying the most common IP (the final `results[0]` arm is
the source's own unreachable fallback). -/
def get_public_endpoint (local_ip : String) (attempts : List (Option StunResult)) :
    String × Nat × String :=
  match attempts.filterMap id with
  | [] => (local_ip, 0, "Unknown")
  | r0 :: rest =>
    match mostCommonIp (r0 :: rest) (r0 :: rest) with
    | none => (r0.ip, r0.port, r0.nat_type)
    | some mc =>
      match (r0 :: rest).find? (fun r => decide (r.ip = mc)) with
      | some r => (r.ip, r.port, r.nat_type)
      | none => (r0.ip, r0.port, r0.nat_type)

/-- The caller-side substitution in `main`:
`if public_port == 0: public_port = local_port`. -/
def effectivePublicPort (public_port local_port : Nat) : Nat :=
  if public_port = 0 then local_port else public_port

/-- The function `mostCommonIp` returns `none` exactly on the empty candidate list. -/
theorem mostCommonIp_none (results : List StunResult) :
    ∀ l, mostCommonIp results l = none ↔ l = [] := by
  intro l
  cases l with
  | nil => simp [mostCommonIp]
  | cons r rest =>
    rw [mostCommonIp]
    rcases mostCommonIp results rest with - | y
    · simp
    · by_cases h : countIp results r.ip < countIp results y <;> simp [h]

/-- The ip returned by `mostCommonIp` is attained at a position of the
candidate list that has maximal count, with everything before it of strictly
smaller count. -/
theorem mostCommonIp_spec (results : List StunResult) :
    ∀ l y, mostCommonIp results l = some y →
      ∃ l1 r l2, l = l1 ++ r :: l2 ∧ r.ip = y ∧
        (∀ s ∈ l, countIp results s.ip ≤ countIp results y) ∧
        (∀ s ∈ l1, countIp results s.ip < countIp results y) := by
  intro l
  induction l with
  | nil => intro y h; simp [mostCommonIp] at h
  | cons r rest ih =>
    intro y h
    rw [mostCommonIp] at h
    rcases hrec : mostCommonIp results rest with - | y2 <;> rw [hrec] at h <;>
      simp only at h
    · have hrest : rest = [] := (mostCommonIp_none results rest).mp hrec
      have hy : r.ip = y := by simpa using h
      subst hrest
      exact ⟨[], r, [], rfl, hy, by simp [hy.symm], by simp⟩
    · obtain ⟨l1, rr, l2, heq, hip, hall, hstrict⟩ := ih y2 hrec
      by_cases hlt : countIp results r.ip < countIp results y2
      · rw [if_pos hlt] at h
        have hy : y2 = y := by simpa using h
        subst hy
        refine ⟨r :: l1, rr, l2, by rw [heq, List.cons_append], hip, ?_, ?_⟩
        · intro s hs
          rcases List.mem_cons.mp hs with h1 | h1
          · rw [h1]; omega
          · exact hall s h1
        · intro s hs
          rcases List.mem_cons.mp hs with h1 | h1
          · rw [h1]; exact hlt
          · exact hstrict s h1
      · rw [if_neg hlt] at h
        have hy : r.ip = y := by simpa using h
        refine ⟨[], r, rest, rfl, hy, ?_, by simp⟩
        intro s hs
        rcases List.mem_cons.mp hs with h1 | h1
        · rw [h1, hy]
        · calc countIp results s.ip ≤ countIp results y2 := hall s h1
            _ ≤ countIp results r.ip := by omega
            _ = countIp results y := by rw [hy]

/-- Computing `find?` on a decomposed list whose prefix all fails the test. -/
theorem find?_append_first {α : Type} (p : α → Bool) (l1 : List α) (r : α) (l2 : List α)
    (h1 : ∀ s ∈ l1, p s = false) (h2 : p r = true) :
    (l1 ++ r :: l2).find? p = some r := by
  induction l1 with
  | nil => simpa using List.find?_cons_of_pos l2 h2
  | cons a t ih =>
    rw [List.cons_append, List.find?_cons_of_neg _ (by simp [h1 a (List.mem_cons_self ..)])]
    exact ih (fun s hs => h1 s (List.mem_cons_of_mem a hs))

/-- C8: when every configured STUN server fails, endpoint discovery returns
the host's local interface address with port 0 and NAT type "Unknown", and
`main` substitutes the locally bound UDP port for a public port of 0; when at
least one server succeeds, discovery returns the (ip, port, nat type) of the
first successful responder whose IP attains the maximal vote count — i.e.
the highest-voted IP with ties broken by the first successful responder. -/
theorem stun_vote_and_port_fallback (local_ip : String) (attempts : List (Option StunResult))
    (public_port local_port : Nat) :
    (attempts.filterMap id = [] →
      get_public_endpoint local_ip attempts = (local_ip, 0, "Unknown")) ∧
    (∀ r0 rest, attempts.filterMap id = r0 :: rest →
      ∃ l1 r l2, r0 :: rest = l1 ++ r :: l2 ∧
        get_public_endpoint local_ip attempts = (r.ip, r.port, r.nat_type) ∧
        (∀ s ∈ r0 :: rest, countIp (r0 :: rest) s.ip ≤ countIp (r0 :: rest) r.ip) ∧
        (∀ s ∈ l1, countIp (r0 :: rest) s.ip < countIp (r0 :: rest) r.ip)) ∧
    effectivePublicPort 0 local_port = local_port ∧
    (public_port ≠ 0 → effectivePublicPort public_port local_port = public_port) := by
  refine ⟨?_, ?_, by simp [effectivePublicPort],
    fun h => by simp [effectivePublicPort, h]⟩
  · intro h
    unfold get_public_endpoint
    rw [h]
  · intro r0 rest h
    rcases hmc : mostCommonIp (r0 :: rest) (r0 :: rest) with - | mc
    · exact absurd ((mostCommonIp_none _ _).mp hmc) (by simp)
    · obtain ⟨l1, r, l2, heq, hip, hall, hstrict⟩ := mostCommonIp_spec _ _ mc hmc
      have hfind : (r0 :: rest).find? (fun s => decide (s.ip = mc)) = some r := by
        rw [heq]
        apply find?_append_first
        · intro s hs
          have hne : s.ip ≠ mc := by
            intro hcontra
            have h1 := hstrict s hs
            rw [hcontra] at h1
            omega
          simp [hne]
        · simp [hip]
      refine ⟨l1, r, l2, heq, ?_, by simpa [hip] using hall, by simpa [hip] using hstrict⟩
      unfold get_public_endpoint
      rw [h]
      simp only [hmc, hfind]

/-- Witness for C8: all-failed attempts fall back to `(local, 0, "Unknown")`;
with two successful responses reporting different IPs (a vote tie), the
first successful responder wins; port 0 is replaced by the local port. -/
theorem stun_vote_and_port_fallback_witness :
    get_public_endpoint "10.0.0.5" [none, none] = ("10.0.0.5", 0, "Unknown") ∧
    (∃ l1 r l2,
      [StunResult.mk "Full Cone" "1.1.1.1" 41, StunResult.mk "Symmetric" "2.2.2.2" 42] =
        l1 ++ r :: l2 ∧
      get_public_endpoint "lo"
        [some (StunResult.mk "Full Cone" "1.1.1.1" 41),
         some (StunResult.mk "Symmetric" "2.2.2.2" 42)] = (r.ip, r.port, r.nat_type) ∧
      (∀ s ∈ [StunResult.mk "Full Cone" "1.1.1.1" 41, StunResult.mk "Symmetric" "2.2.2.2" 42],
        countIp [StunResult.mk "Full Cone" "1.1.1.1" 41, StunResult.mk "Symmetric" "2.2.2.2" 42]
            s.ip ≤
          countIp [StunResult.mk "Full Cone" "1.1.1.1" 41, StunResult.mk "Symmetric" "2.2.2.2" 42]
            r.ip) ∧
      (∀ s ∈ l1,
        countIp [StunResult.mk "Full Cone" "1.1.1.1" 41, StunResult.mk "Symmetric" "2.2.2.2" 42]
            s.ip <
          countIp [StunResult.mk "Full Cone" "1.1.1.1" 41, StunResult.mk "Symmetric" "2.2.2.2" 42]
            r.ip)) ∧
    effectivePublicPort 0 7777 = 7777 ∧
    effectivePublicPort 9 7777 = 9 := by
  refine ⟨(stun_vote_and_port_fallback "10.0.0.5" [none, none] 0 0).1 rfl, ?_, ?_, ?_⟩
  · exact (stun_vote_and_port_fallback "lo"
      [some (StunResult.mk "Full Cone" "1.1.1.1" 41),
       some (StunResult.mk "Symmetric" "2.2.2.2" 42)] 0 0).2.1
      (StunResult.mk "Full Cone" "1.1.1.1" 41) [StunResult.mk "Symmetric" "2.2.2.2" 42] rfl
  · exact (stun_vote_and_port_fallback "x" [] 0 7777).2.2.1
  · exact (stun_vote_and_port_fallback "x" [] 9 7777).2.2.2 (by decide)

/-! ## Rendezvous server (`src/p2p/server.py`) -/

/-- A registry value: the stored endpoint (ip, port as `int(port)` parsed
it) and the `datetime.now()` timestamp, in whole seconds. -/
structure Entry where
  endpoint : String × Int
  timestamp : Nat
deriving DecidableEq

/-- The in-memory `registry` dict: an association list whose keys (the
usernames) are distinct, in insertion order. -/
abbrev Registry := List (String × Entry)

/-- Function `cleanup_stale_entries`: delete every user whose entry is older than
300 seconds (`(now - timestamp).total_seconds() > 300`), keeping the rest. -/
def cleanup_stale_entries (now : Nat) (reg : Registry) : Registry :=
  reg.filter (fun p => decide (now - p.2.timestamp ≤ 300))

/-- Function `get_peer(username)`: first run `cleanup_stale_entries`, then 404
(`none`) if the username is absent from the cleaned registry, else read the
entry's endpoint, overwrite its timestamp with `datetime.now()`, and return
the endpoint. -/
def get_peer (now : Nat) (reg : Registry) (username : String) :
    Registry × Option (String × Int) :=
  match (cleanup_stale_entries now reg).find? (fun p => decide (p.1 = username)) with
  | none => (cleanup_stale_entries now reg, none)
  | some q =>
    ((cleanup_stale_entries now reg).map
      (fun p => if p.1 = username then (p.1, { p.2 with timestamp := now }) else p),
     some q.2.endpoint)

/-- A JSON value as extracted by `data.get(...)` in `register`: a string, a
number, or an absent field (`None`). -/
inductive JVal
  | str (s : String)
  | num (n : Int)
  | null
deriving DecidableEq

/-- Python truthiness of a field, as tested by `all([username, ip, port])`:
the empty string, the number 0 and `None` are falsy. -/
def truthy : JVal → Bool
  | .str s => decide (s ≠ "")
  | .num n => decide (n ≠ 0)
  | .null => false

/-- Model of `int(port)`: succeeds on a number or a numeric string and raises
`TypeError`/`ValueError` otherwise (which `register` catches into a 400). -/
def toIntVal : JVal → Option Int
  | .num n => some n
  | .str s => s.toInt?
  | .null => none

/-- Assignment `registry[username] = ...`: a dict upsert that replaces the value in
place when the key exists and appends otherwise. -/
def upsert (reg : Registry) (u : String) (e : Entry) : Registry :=
  if (reg.find? (fun p => decide (p.1 = u))).isSome then
    reg.map (fun p => if p.1 = u then (u, e) else p)
  else reg ++ [(u, e)]

/-- Function `register`: 400 when any of username/ip/port is falsy (presence is
checked by truthiness over `all([...])`), 400 when `int(port)` fails,
otherwise store the endpoint with the current timestamp, run the cleanup,
and answer 200.  The username and ip fields are modelled as the strings the
normal client sends; the port field keeps its full JSON generality since the
claims turn on its truthiness. -/
def register (now : Nat) (reg : Registry) (username ip : String) (port : JVal) :
    Registry × Nat :=
  if decide (username ≠ "") && decide (ip ≠ "") && truthy port then
    match toIntVal port with
    | none => (reg, 400)
    | some p =>
      (cleanup_stale_entries now (upsert reg username (Entry.mk (ip, p) now)), 200)
  else (reg, 400)

/-- C10: a registration whose username or ip is the empty string, or whose
port is the empty string or the integer 0, is answered with HTTP 400 and
leaves the registry exactly as it was — in particular port 0, although a
well-formed integer port, is rejected by the truthiness presence check. -/
theorem register_rejects_falsy (now : Nat) (reg : Registry) (username ip : String)
    (port : JVal)
    (h : username = "" ∨ ip = "" ∨ port = JVal.str "" ∨ port = JVal.num 0) :
    register now reg username ip port = (reg, 400) := by
  unfold register
  rcases h with h | h | h | h <;> subst h <;> simp [truthy]

/-- Witness for C10 at port 0 and at an empty username. -/
theorem register_rejects_falsy_witness :
    register 5 [] "alice" "1.2.3.4" (JVal.num 0) = ([], 400) ∧
    register 5 [] "" "1.2.3.4" (JVal.num 80) = ([], 400) :=
  ⟨register_rejects_falsy 5 [] "alice" "1.2.3.4" (JVal.num 0)
      (Or.inr (Or.inr (Or.inr rfl))),
   register_rejects_falsy 5 [] "" "1.2.3.4" (JVal.num 80) (Or.inl rfl)⟩

/-- Refreshing the timestamp of `u` does not disturb the lookup of any other
username. -/
theorem find?_refresh_other (now : Nat) (u v : String) (hvu : v ≠ u) :
    ∀ reg : Registry,
      (reg.map (fun p => if p.1 = u then (p.1, { p.2 with timestamp := now }) else p)).find?
          (fun p => decide (p.1 = v)) =
        reg.find? (fun p => decide (p.1 = v)) := by
  intro reg
  induction reg with
  | nil => rfl
  | cons p t ih =>
    rw [List.map_cons]
    by_cases hv : p.1 = v
    · have hpu : ¬ p.1 = u := by rw [hv]; exact hvu
      rw [if_neg hpu, List.find?_cons_of_pos _ (by simp [hv]),
        List.find?_cons_of_pos _ (by simp [hv])]
    · have h1 : (if p.1 = u then (p.1, { p.2 with timestamp := now }) else p).1 = p.1 := by
        split <;> rfl
      rw [List.find?_cons_of_neg _ (by simp [h1, hv]),
        List.find?_cons_of_neg _ (by simp [hv])]
      exact ih

/-- Refreshing the timestamp of `u` turns the lookup of `u` into the old
entry with its timestamp replaced. -/
theorem find?_refresh_self (now : Nat) (u : String) :
    ∀ reg : Registry,
      (reg.map (fun p => if p.1 = u then (p.1, { p.2 with timestamp := now }) else p)).find?
          (fun p => decide (p.1 = u)) =
        (reg.find? (fun p => decide (p.1 = u))).map
          (fun q => (q.1, { q.2 with timestamp := now })) := by
  intro reg
  induction reg with
  | nil => rfl
  | cons p t ih =>
    rw [List.map_cons]
    by_cases hp : p.1 = u
    · rw [if_pos hp, List.find?_cons_of_pos _ (by simp [hp]),
        List.find?_cons_of_pos _ (by simp [hp])]
      rfl
    · rw [if_neg hp, List.find?_cons_of_neg _ (by simp [hp]),
        List.find?_cons_of_neg _ (by simp [hp])]
      exact ih

/-- With distinct keys, looking a username up after a filter is the filter
applied to the original lookup. -/
theorem find?_filter_keys (q : String × Entry → Bool) (v : String) :
    ∀ reg : Registry, (reg.map Prod.fst).Nodup →
      (reg.filter q).find? (fun p => decide (p.1 = v)) =
        match reg.find? (fun p => decide (p.1 = v)) with
        | none => none
        | some e => if q e then some e else none := by
  intro reg
  induction reg with
  | nil => intro _; rfl
  | cons p t ih =>
    intro hnd
    rw [List.map_cons, List.nodup_cons] at hnd
    by_cases hv : p.1 = v
    · rw [List.find?_cons_of_pos _ (by simp [hv])]
      by_cases hq : q p = true
      · rw [List.filter_cons_of_pos hq, List.find?_cons_of_pos _ (by simp [hv])]
        simp [hq]
      · rw [List.filter_cons_of_neg (by simpa using hq)]
        have hvt : ∀ x ∈ t.filter q, ¬ ((fun p => decide (p.1 = v)) x = true) := by
          intro x hx
          simp only [decide_eq_true_eq]
          intro hxv
          exact hnd.1 (by
            rw [hv, ← hxv]
            exact List.mem_map_of_mem Prod.fst (List.mem_of_mem_filter hx))
        rw [List.find?_eq_none.mpr hvt]
        simp [hq]
    · rw [List.find?_cons_of_neg _ (by simp [hv])]
      by_cases hq : q p = true
      · rw [List.filter_cons_of_pos hq, List.find?_cons_of_neg _ (by simp [hv])]
        exact ih hnd.2
      · rw [List.filter_cons_of_neg (by simpa using hq)]
        exact ih hnd.2

/-- C9 counterexample: a registry holding a fresh entry for "alice" and a
stale one for "bob" (age 350s > 300s).  Resolving "alice" succeeds — and the
same call deletes "bob" from the registry, because `get_peer` runs
`cleanup_stale_entries` before the lookup; so a successful lookup does not
leave every other entry unchanged. -/
theorem get_peer_evicts_other_counterexample :
    (get_peer 400 [("alice", Entry.mk ("1.1.1.1", 1) 200), ("bob", Entry.mk ("2.2.2.2", 2) 50)]
      "alice").2 = some ("1.1.1.1", 1) ∧
    [("alice", Entry.mk ("1.1.1.1", 1) 200), ("bob", Entry.mk ("2.2.2.2", 2) 50)].find?
      (fun p => decide (p.1 = "bob")) = some ("bob", Entry.mk ("2.2.2.2", 2) 50) ∧
    (get_peer 400 [("alice", Entry.mk ("1.1.1.1", 1) 200), ("bob", Entry.mk ("2.2.2.2", 2) 50)]
      "alice").1.find? (fun p => decide (p.1 = "bob")) = none := by
  decide

/-- C9 amended: a successful `get_peer` lookup sets the resolved entry's
timestamp to the current time (postponing its staleness eviction), leaves
every other entry whose age is within the 300-second window unchanged, and —
because `cleanup_stale_entries` runs first — removes every entry older than
300 seconds.  Stated over registries with distinct keys, as Python dicts
guarantee. -/
theorem get_peer_refreshes_and_evicts (now : Nat) (reg : Registry) (u : String)
    (hnd : (reg.map Prod.fst).Nodup) (ep : String × Int)
    (hsucc : (get_peer now reg u).2 = some ep) :
    (∃ e : Entry, reg.find? (fun p => decide (p.1 = u)) = some (u, e) ∧
      now - e.timestamp ≤ 300 ∧ ep = e.endpoint) ∧
    (get_peer now reg u).1.find? (fun p => decide (p.1 = u)) =
      some (u, Entry.mk ep now) ∧
    (∀ v, v ≠ u → ∀ e2 : Entry,
      reg.find? (fun p => decide (p.1 = v)) = some (v, e2) →
      (now - e2.timestamp ≤ 300 →
        (get_peer now reg u).1.find? (fun p => decide (p.1 = v)) = some (v, e2)) ∧
      (300 < now - e2.timestamp →
        (get_peer now reg u).1.find? (fun p => decide (p.1 = v)) = none)) := by
  have hqu := find?_filter_keys (fun p => decide (now - p.2.timestamp ≤ 300)) u reg hnd
  rcases hfind : (cleanup_stale_entries now reg).find? (fun p => decide (p.1 = u)) with - | q
  · unfold get_peer at hsucc
    rw [hfind] at hsucc
    simp at hsucc
  · have hR : (get_peer now reg u).1 =
        (cleanup_stale_entries now reg).map
          (fun p => if p.1 = u then (p.1, { p.2 with timestamp := now }) else p) := by
      unfold get_peer
      rw [hfind]
    have hep : ep = q.2.endpoint := by
      unfold get_peer at hsucc
      rw [hfind] at hsucc
      simpa using hsucc.symm
    have hq1 : q.1 = u := by simpa using List.find?_some hfind
    have horig : reg.find? (fun p => decide (p.1 = u)) = some q ∧
        now - q.2.timestamp ≤ 300 := by
      rw [cleanup_stale_entries, hqu] at hfind
      rcases hfo : reg.find? (fun p => decide (p.1 = u)) with - | e0 <;>
        rw [hfo] at hfind <;> simp only at hfind
      · simp at hfind
      · by_cases hq0 : decide (now - e0.2.timestamp ≤ 300) = true
        · rw [if_pos hq0] at hfind
          have he0 : e0 = q := by simpa using hfind
          subst he0
          exact ⟨hfo, by simpa using hq0⟩
        · rw [if_neg hq0] at hfind
          simp at hfind
    refine ⟨⟨q.2, ?_, horig.2, hep⟩, ?_, ?_⟩
    · rw [horig.1]
      rw [← hq1, Prod.mk.eta]
    · rw [hR, find?_refresh_self, hfind]
      simp [hep, hq1]
    · intro v hvu e2 hfv
      have hother := find?_refresh_other now u v hvu (cleanup_stale_entries now reg)
      have hqv := find?_filter_keys (fun p => decide (now - p.2.timestamp ≤ 300)) v reg hnd
      constructor
      · intro hfresh
        rw [hR, hother, cleanup_stale_entries, hqv, hfv]
        simp [hfresh]
      · intro hstale
        rw [hR, hother, cleanup_stale_entries, hqv, hfv]
        simp only
        rw [if_neg (by simpa using Nat.not_le.mpr hstale)]

/-- Witness for the amended C9: resolving "alice" at time 400 rewrites her
timestamp to 400 and leaves the fresh "bob" entry untouched. -/
theorem get_peer_refreshes_and_evicts_witness :
    (get_peer 400
      [("alice", Entry.mk ("1.1.1.1", 1) 200), ("bob", Entry.mk ("2.2.2.2", 2) 350)]
      "alice").1.find? (fun p => decide (p.1 = "alice")) =
        some ("alice", Entry.mk ("1.1.1.1", 1) 400) ∧
    (get_peer 400
      [("alice", Entry.mk ("1.1.1.1", 1) 200), ("bob", Entry.mk ("2.2.2.2", 2) 350)]
      "alice").1.find? (fun p => decide (p.1 = "bob")) =
        some ("bob", Entry.mk ("2.2.2.2", 2) 350) := by
  have h := get_peer_refreshes_and_evicts 400
    [("alice", Entry.mk ("1.1.1.1", 1) 200), ("bob", Entry.mk ("2.2.2.2", 2) 350)]
    "alice" (by decide) ("1.1.1.1", 1) (by decide)
  exact ⟨h.2.1,
    (h.2.2 "bob" (by decide) (Entry.mk ("2.2.2.2", 2) 350) (by decide)).1 (by decide)⟩
